import Mathlib

/-!
Verification of the Horus binary packet decoder (`horusdemodlib/decoder.py`)
against its natural-language specification.

The decoder module itself (`decode_packet`, the packet format registry,
`hex_to_bytes`) is embedded directly from the source.  Its collaborators
(`check_packet_crc`, `ukhas_crc`, `decode_field`, `decode_custom_fields`,
the payload-name and custom-field registries) live in sibling modules that
are not part of the decoder source; those are modelled from the spec, as
marked in their doc comments.  Python exceptions are modelled with
`Except`; a raised exception is an `Except.error`.
-/

set_option maxRecDepth 100000

deriving instance DecidableEq for Except

/-- Failure reasons carried by the `ValueError`s that `decode_packet`
raises, one constructor per `raise ValueError(...)` site. -/
inductive DecodeFailure where
  | malformedFormatDescriptor (declared structLen : Nat)
  | inputLengthMismatch (got expected : Nat)
  | crcFailure
  | fieldCountMismatch (declared got : Nat)
  | unknownFieldType (tag : String)
  | customFieldMismatch
deriving DecidableEq, Repr

/-- Python exceptions observable from the decoder.  `typeError` is the
`TypeError: NoneType object is not subscriptable` raised when
`packet_format` is `None` and gets subscripted; `structError` is
`struct.error`; `binasciiError` is `binascii.Error` (a `ValueError`
subclass raised by the hex codec, distinct from `TypeError`);
`unicodeEncodeError` arises from `str.encode('ascii')`. -/
inductive PyError where
  | typeError
  | structError
  | valueError (k : DecodeFailure)
  | unicodeEncodeError
  | binasciiError
deriving DecidableEq, Repr

/-- Little-endian value of a byte list (first byte least significant). -/
def leNat : List Nat → Nat
  | [] => 0
  | b :: rest => (b % 256) + 256 * leNat rest

/-- Two's-complement reading of a `bits`-wide unsigned value. -/
def toSigned (v : Nat) (bits : Nat) : Int :=
  if v < 2 ^ (bits - 1) then (v : Int) else (v : Int) - 2 ^ bits

/-- Decimal digit character for `n < 10`. -/
def decDigit (n : Nat) : Char :=
  if n = 0 then '0' else if n = 1 then '1' else if n = 2 then '2'
  else if n = 3 then '3' else if n = 4 then '4' else if n = 5 then '5'
  else if n = 6 then '6' else if n = 7 then '7' else if n = 8 then '8'
  else '9'

/-- Fuelled digit extraction (the fuel strictly bounds the digit count,
so `natChars` below never exhausts it). -/
def natCharsAux : Nat → Nat → List Char
  | 0, _ => []
  | fuel + 1, n =>
    if n < 10 then [decDigit n]
    else natCharsAux fuel (n / 10) ++ [decDigit (n % 10)]

/-- Decimal digit characters of `n`, most significant first. -/
def natChars (n : Nat) : List Char := natCharsAux (n + 1) n

/-- Left-pad a character list with zeros to width `k`. -/
def padZeros (k : Nat) (cs : List Char) : List Char :=
  List.replicate (k - cs.length) '0' ++ cs

/-- Decimal rendering of an integer (Python `str(int)`). -/
def intRepr (i : Int) : String :=
  (if i < 0 then "-" else "") ++ String.mk (natChars i.natAbs)

/-- Fixed-precision decimal rendering of the rational `num / den` with
`digits` digits after the point, rounding half away from zero.  Modelled
from the spec: the field codec's "fixed-precision decimal string" forms. -/
def decFixed (num : Int) (den : Nat) (digits : Nat) : String :=
  let scaled := (num.natAbs * 10 ^ digits + den / 2) / den
  (if num < 0 then "-" else "") ++ String.mk (natChars (scaled / 10 ^ digits))
    ++ "." ++ String.mk (padZeros digits (natChars (scaled % 10 ^ digits)))

/-- Render an IEEE-754 binary32 bit pattern as a fixed five-decimal
string.  Modelled from the spec: `degree_float` fields keep the 32-bit
float unchanged and print a fixed-precision decimal string. -/
def floatRepr (bits : Nat) : String :=
  let sgn := bits.testBit 31
  let e := bits / 2 ^ 23 % 256
  let m := bits % 2 ^ 23
  if e = 255 then (if m = 0 then (if sgn then "-inf" else "inf") else "nan")
  else
    let scaled :=
      if e = 0 then (m * 100000 + 2 ^ 148) / 2 ^ 149
      else if e < 150 then ((2 ^ 23 + m) * 100000 + 2 ^ (149 - e)) / 2 ^ (150 - e)
      else (2 ^ 23 + m) * 2 ^ (e - 150) * 100000
    (if sgn then "-" else "") ++ String.mk (natChars (scaled / 100000))
      ++ "." ++ String.mk (padZeros 5 (natChars (scaled % 100000)))

/-- `HH:MM:SS` rendering of an hour/minute/second triple. -/
def hmsText (h m s : Nat) : String :=
  String.mk (padZeros 2 (natChars h) ++ ':' ::
    (padZeros 2 (natChars m) ++ ':' :: padZeros 2 (natChars s)))

/-- Hexadecimal digit character for `n < 16`. -/
def hexDigit (n : Nat) : Char :=
  if n < 10 then decDigit n
  else if n = 10 then 'A' else if n = 11 then 'B' else if n = 12 then 'C'
  else if n = 13 then 'D' else if n = 14 then 'E' else 'F'

/-- Four-character uppercase hexadecimal rendering of a 16-bit value. -/
def hex4 (n : Nat) : String :=
  String.mk [hexDigit (n / 4096 % 16), hexDigit (n / 256 % 16),
    hexDigit (n / 16 % 16), hexDigit (n % 16)]

/-- Hexadecimal rendering of a byte list, two digits per byte. -/
def hexText (bs : List Nat) : String :=
  String.mk ((bs.map (fun b => [hexDigit (b % 256 / 16), hexDigit (b % 16)])).flatten)

/-- One shift-and-conditionally-xor round of the CRC-16/CCITT update. -/
def crc16Round (c : Nat) : Nat :=
  if c.testBit 15 then ((c * 2) ^^^ 4129) % 65536 else (c * 2) % 65536

/-- Fold one byte into a CRC-16/CCITT accumulator (eight rounds). -/
def crc16Byte (c b : Nat) : Nat :=
  crc16Round (crc16Round (crc16Round (crc16Round (crc16Round (crc16Round
    (crc16Round (crc16Round (c ^^^ ((b % 256) * 256)))))))))

/-- The CRC byte loop with an explicit accumulator. -/
def crcLoop (c : Nat) : List Nat → Nat
  | [] => c
  | b :: rest => crcLoop (crc16Byte c b) rest

/-- CRC-16/CCITT-FALSE (poly 0x1021, init 0xFFFF) of a byte list.
Modelled from the spec: the pluggable 16-bit CRC named `crc16`, pinned by
the spec's boundary-case test vectors. -/
def crc16ccitt (bs : List Nat) : Nat :=
  crcLoop 65535 bs

/-- Modelled from the spec: `check_packet_crc` (checksum collaborator,
not in the decoder source).  For the `crc16` algorithm it computes the
CRC over all bytes except the trailing two and compares it with the
trailing little-endian 16-bit checksum field. -/
def check_packet_crc (data : List Nat) (alg : String) : Bool :=
  if alg = "crc16" then
    decide (2 ≤ data.length) &&
      decide (crc16ccitt (data.take (data.length - 2)) =
        leNat (data.drop (data.length - 2)))
  else false

/-- ASCII encoding of a string (`str.encode('ascii')`): fails with
`UnicodeEncodeError` on any character outside the 7-bit range. -/
def encodeAscii (s : String) : Except PyError (List Nat) :=
  if s.data.all (fun c => c.toNat < 128) then .ok (s.data.map Char.toNat)
  else .error .unicodeEncodeError

/-- Modelled from the spec: `ukhas_crc` (checksum collaborator, not in
the decoder source) — the UKHAS text-checksum digest, a CRC-16/CCITT of
the sentence bytes rendered as four uppercase hexadecimal characters. -/
def ukhas_crc (bs : List Nat) : String :=
  hex4 (crc16ccitt bs)

/-- A packet format descriptor, embedded from `HORUS_PACKET_FORMATS`
entries: display name, declared byte length, Python `struct` format
string, checksum algorithm name, and the ordered
`(field_name, field_type)` list. -/
structure PacketFormat where
  name : String
  length : Nat
  struct : String
  checksum : String
  fields : List (String × String)
deriving DecidableEq, Repr

/-- Decoded values stored in the output dictionary.  Python's
heterogeneous dict values are modelled with one sum type; a binary32
float is kept as its bit pattern, and non-integer semantic values
(degrees, volts) as exact rationals `num / den`. -/
inductive Value where
  | int (i : Int)
  | str (s : String)
  | float (bits : Nat)
  | bytes (bs : List Nat)
  | bool (b : Bool)
  | fmt (f : PacketFormat)
  | rat (num : Int) (den : Nat)
deriving DecidableEq, Repr

/-- `horus_binary_v1` entry of `HORUS_PACKET_FORMATS`. -/
def horus_binary_v1 : PacketFormat :=
  { name := "Horus Binary v1 22 Byte Format"
    length := 22
    struct := "<BH3sffHBBbBH"
    checksum := "crc16"
    fields := [("payload_id", "payload_id"), ("sequence_number", "none"),
      ("time", "time_hms"), ("latitude", "degree_float"),
      ("longitude", "degree_float"), ("altitude", "none"), ("speed", "none"),
      ("satellites", "none"), ("temperature", "none"),
      ("battery_voltage", "battery_5v_byte"), ("checksum", "none")] }

/-- `horus_binary_v2_16byte` entry of `HORUS_PACKET_FORMATS`. -/
def horus_binary_v2_16byte : PacketFormat :=
  { name := "Horus Binary v2 16 Byte Format"
    length := 16
    struct := "<BBH3s3sHBBH"
    checksum := "crc16"
    fields := [("payload_id", "payload_id"), ("sequence_number", "none"),
      ("time", "time_biseconds"), ("latitude", "degree_fixed3"),
      ("longitude", "degree_fixed3"), ("altitude", "none"),
      ("battery_voltage", "battery_5v_byte"), ("flags", "none"),
      ("checksum", "none")] }

/-- `horus_binary_v2_32byte` entry of `HORUS_PACKET_FORMATS`. -/
def horus_binary_v2_32byte : PacketFormat :=
  { name := "Horus Binary v2 32 Byte Format"
    length := 32
    struct := "<HH3sffHBBbB9sH"
    checksum := "crc16"
    fields := [("payload_id", "payload_id"), ("sequence_number", "none"),
      ("time", "time_hms"), ("latitude", "degree_float"),
      ("longitude", "degree_float"), ("altitude", "none"), ("speed", "none"),
      ("satellites", "none"), ("temperature", "none"),
      ("battery_voltage", "battery_5v_byte"), ("custom", "custom"),
      ("checksum", "none")] }

/-- `HORUS_LENGTH_TO_FORMAT`, composed with the `HORUS_PACKET_FORMATS`
lookup: packet byte length to descriptor, `none` when no length matches. -/
def HORUS_LENGTH_TO_FORMAT (n : Nat) : Option PacketFormat :=
  if n = 22 then some horus_binary_v1
  else if n = 16 then some horus_binary_v2_16byte
  else if n = 32 then some horus_binary_v2_32byte
  else none

/-- Byte width of a fixed-size scalar struct code. -/
def codeSize (c : Char) : Nat :=
  if c = 'B' ∨ c = 'b' then 1
  else if c = 'H' ∨ c = 'h' then 2
  else if c = 'f' ∨ c = 'i' ∨ c = 'I' then 4
  else 0

/-- Struct codes understood by this model of the `struct` module (the
subset reachable from the decoder's little-endian format strings). -/
def structCodes : List Char := ['b', 'B', 'h', 'H', 'i', 'I', 'f', 's']

/-- Parse the body of a struct format string into `(count, code)` items;
`none` models `struct.error` (unknown code or trailing count). -/
def structItemsGo : List Char → Option Nat → Option (List (Nat × Char))
  | [], none => some []
  | [], some _ => none
  | c :: rest, num =>
    if c.isDigit then structItemsGo rest (some ((num.getD 0) * 10 + (c.toNat - 48)))
    else if c ∈ structCodes then
      match structItemsGo rest none with
      | some items => some ((num.getD 1, c) :: items)
      | none => none
    else none

/-- Expand one struct item into slots: an `s` item is a single byte block
of its count, any other code repeats count times. -/
def expandItem : Nat × Char → List (Char × Nat)
  | (n, c) => if c = 's' then [('s', n)] else List.replicate n (c, codeSize c)

/-- Scalar slots (code and byte width) of a little-endian struct format
string; `none` models `struct.error`. -/
def slotsOf (s : String) : Option (List (Char × Nat)) :=
  match s.data with
  | '<' :: rest =>
    match structItemsGo rest none with
    | some items => some ((items.map expandItem).flatten)
    | none => none
  | _ => none

/-- `struct.calcsize` on the format strings this model understands. -/
def calcsize (s : String) : Option Nat :=
  (slotsOf s).map (fun slots => (slots.map (fun p => p.2)).sum)

/-- Decode the raw bytes of one slot: byte blocks stay bytes, `f` keeps
the binary32 bit pattern, signed codes read two's complement. -/
def decodeScalar (c : Char) (bs : List Nat) : Value :=
  if c = 's' then .bytes bs
  else if c = 'f' then .float (leNat bs)
  else if c = 'b' ∨ c = 'h' ∨ c = 'i' then .int (toSigned (leNat bs) (8 * bs.length))
  else .int (leNat bs)

/-- Read a slot list against a byte list; leftover or missing bytes are
a `struct.error` (`none`), matching `struct.unpack`'s exact-length rule. -/
def readSlots : List (Char × Nat) → List Nat → Option (List Value)
  | [], bs => if bs = [] then some [] else none
  | (c, sz) :: slots, bs =>
    if sz ≤ bs.length then
      match readSlots slots (bs.drop sz) with
      | some vs => some (decodeScalar c (bs.take sz) :: vs)
      | none => none
    else none

/-- `struct.unpack` on the format strings this model understands. -/
def unpack (s : String) (bs : List Nat) : Option (List Value) :=
  match slotsOf s with
  | some slots => readSlots slots bs
  | none => none

/-- Python's `",".join(strings)`. -/
def joinComma : List String → String
  | [] => ""
  | [s] => s
  | s :: rest => s ++ "," ++ joinComma rest

/-- Output dictionary: Python's insertion-ordered `dict` as an
association list with no duplicate keys. -/
abbrev Dict := List (String × Value)

/-- Dictionary read (`d[k]`): first binding of `k`. -/
def dictGet (d : Dict) (k : String) : Option Value :=
  match d with
  | [] => none
  | (k', v) :: rest => if k' = k then some v else dictGet rest k

/-- Dictionary write (`d[k] = v`): update in place when the key exists
(keeping its position, as Python dicts do), else append. -/
def dictSet (d : Dict) (k : String) (v : Value) : Dict :=
  match d with
  | [] => [(k, v)]
  | (k', v') :: rest => if k' = k then (k, v) :: rest else (k', v') :: dictSet rest k v

/-- First binding of an integer key in an association list (Python dict
lookup for the integer-keyed registries). -/
def intAssoc {α : Type} : List (Int × α) → Int → Option α
  | [], _ => none
  | (k, a) :: rest, i => if k = i then some a else intAssoc rest i

/-- Text form of a raw value under the `none` (passthrough) field type.
Modelled from the spec: "decimal/string form of raw value". -/
def rawText (raw : Value) : String :=
  match raw with
  | .int i => intRepr i
  | .str s => s
  | .float b => floatRepr b
  | .bytes bs => hexText bs
  | .bool b => if b then "True" else "False"
  | .fmt _ => ""
  | .rat n d => decFixed n d 5

/-- Modelled from the spec: `decode_field` (field codec collaborator,
not in the decoder source).  Maps a semantic field type and one raw
scalar to the decoded value and its canonical text, per the spec's codec
table; an unrecognized type is a fatal error.  `names` is the current
payload-name registry snapshot used by the `payload_id` type. -/
def decode_field (names : List (Int × String)) (tag : String) (raw : Value) :
    Except PyError (Value × String) :=
  if tag = "none" then .ok (raw, rawText raw)
  else if tag = "payload_id" then
    match raw with
    | .int i => .ok (.int i, (intAssoc names i).getD (intRepr i))
    | _ => .ok (raw, rawText raw)
  else if tag = "time_hms" then
    match raw with
    | .bytes bs => .ok (.str (hmsText (bs.getD 0 0) (bs.getD 1 0) (bs.getD 2 0)),
        hmsText (bs.getD 0 0) (bs.getD 1 0) (bs.getD 2 0))
    | _ => .error .typeError
  else if tag = "time_biseconds" then
    match raw with
    | .int i => .ok (.str (hmsText (2 * i.toNat / 3600) (2 * i.toNat % 3600 / 60)
        (2 * i.toNat % 60)), hmsText (2 * i.toNat / 3600) (2 * i.toNat % 3600 / 60)
        (2 * i.toNat % 60))
    | _ => .error .typeError
  else if tag = "degree_float" then
    match raw with
    | .float b => .ok (.float b, floatRepr b)
    | _ => .error .typeError
  else if tag = "degree_fixed3" then
    match raw with
    | .bytes bs => .ok (.rat (toSigned (leNat bs) (8 * bs.length)) 10000,
        decFixed (toSigned (leNat bs) (8 * bs.length)) 10000 5)
    | _ => .error .typeError
  else if tag = "battery_5v_byte" then
    match raw with
    | .int i => .ok (.rat (i * 5) 255, decFixed (i * 5) 255 2)
    | _ => .error .typeError
  else .error (.valueError (.unknownFieldType tag))

/-- A payload-specific custom sub-layout.  Modelled from the spec: the
Custom Field Registry maps a payload id to an ordered field list with
the binary structure of the embedded custom byte block. -/
structure CustomFieldLayout where
  struct : String
  fields : List (String × String)
deriving DecidableEq, Repr

/-- Decode the zipped custom field specs and raw scalars in declared
order, collecting `(name, value)` pairs and canonical texts. -/
def decodeCustomList (names : List (Int × String)) :
    List ((String × String) × Value) → Except PyError (List (String × Value) × List String)
  | [] => .ok ([], [])
  | ((n, tag), raw) :: rest =>
    match decode_field names tag raw with
    | .error e => .error e
    | .ok (v, s) =>
      match decodeCustomList names rest with
      | .error e => .error e
      | .ok (ps, ts) => .ok ((n, v) :: ps, s :: ts)

/-- Modelled from the spec: `decode_custom_fields` (Custom Field
Registry collaborator, not in the decoder source).  Unpacks the custom
byte block against the payload's sub-layout and decodes every declared
custom field with the same per-field dispatch as `decode_field`,
returning the `(name, value)` pairs in declared order together with the
comma-joined text fragment. -/
def decode_custom_fields (names : List (Int × String)) (layout : CustomFieldLayout)
    (raw : Value) : Except PyError (List (String × Value) × String) :=
  match raw with
  | .bytes bs =>
    match unpack layout.struct bs with
    | none => .error .structError
    | some raws =>
      if raws.length ≠ layout.fields.length then .error (.valueError .customFieldMismatch)
      else
        match decodeCustomList names (layout.fields.zip raws) with
        | .error e => .error e
        | .ok (ps, ts) => .ok (ps, joinComma ts)
  | _ => .error .typeError

/-- Look a dictionary value up in the custom-field registry: only an
integer payload id can match the integer-keyed registry. -/
def customLookup (cf : List (Int × CustomFieldLayout)) (v : Value) :
    Option CustomFieldLayout :=
  match v with
  | .int i => intAssoc cf i
  | _ => none

/-- The field extraction loop of `decode_packet` (lines 127-154 of the
source), over the zipped `(field_name, field_type)` specs and raw
scalars: a field named `custom` is delegated to the custom-field
registry keyed by the already-accumulated `payload_id` (skipped silently
when the id is unknown), a field named `checksum` is skipped, and every
other field is decoded and stored under its name with its text appended
to the sentence fragments. -/
def processFields (names : List (Int × String)) (cf : List (Int × CustomFieldLayout)) :
    List ((String × String) × Value) → Dict → List String →
    Except PyError (Dict × List String)
  | [], d, frags => .ok (d, frags)
  | ((fieldName, fieldType), raw) :: rest, d, frags =>
    if fieldName = "custom" then
      match customLookup cf ((dictGet d "payload_id").getD (.int 0)) with
      | none => processFields names cf rest d frags
      | some layout =>
        match decode_custom_fields names layout raw with
        | .error e => .error e
        | .ok (pairs, cstr) =>
          processFields names cf rest (pairs.foldl (fun acc p => dictSet acc p.1 p.2) d)
            (frags ++ [cstr])
    else if fieldName = "checksum" then processFields names cf rest d frags
    else
      match decode_field names fieldType raw with
      | .error e => .error e
      | .ok (v, s) => processFields names cf rest (dictSet d fieldName v) (frags ++ [s])

/-- `decode_packet` (decoder source, lines 82-162), with the payload-name
and custom-field registry snapshots passed explicitly in place of the
module globals.  When no format is supplied and the length lookup fails,
`packet_format` stays `None` and the next subscript raises `TypeError`,
exactly as in the source. -/
def decode_packet (names : List (Int × String)) (cf : List (Int × CustomFieldLayout))
    (data : List Nat) (packet_format : Option PacketFormat) : Except PyError Dict :=
  match (match packet_format with
    | some f => some f
    | none => HORUS_LENGTH_TO_FORMAT data.length) with
  | none => .error .typeError
  | some fmt =>
    let out0 : Dict := [("packet_format", .fmt fmt), ("crc_ok", .bool false),
      ("payload_id", .int 0)]
    match calcsize fmt.struct with
    | none => .error .structError
    | some structLength =>
      if structLength ≠ fmt.length then
        .error (.valueError (.malformedFormatDescriptor fmt.length structLength))
      else if data.length ≠ structLength then
        .error (.valueError (.inputLengthMismatch data.length structLength))
      else if check_packet_crc data fmt.checksum = false then
        .error (.valueError .crcFailure)
      else
        let out1 := dictSet out0 "crc_ok" (.bool true)
        match unpack fmt.struct data with
        | none => .error .structError
        | some raws =>
          if raws.length ≠ fmt.fields.length then
            .error (.valueError (.fieldCountMismatch fmt.fields.length raws.length))
          else
            match processFields names cf (fmt.fields.zip raws) out1 [] with
            | .error e => .error e
            | .ok (d, frags) =>
              let j := joinComma frags
              match encodeAscii j with
              | .error e => .error e
              | .ok bs => .ok (dictSet d "ukhas_str" (.str ("$$" ++ j ++ "*" ++ ukhas_crc bs)))

/-- Value of a hexadecimal digit character, if any. -/
def hexVal (c : Char) : Option Nat :=
  if '0' ≤ c ∧ c ≤ '9' then some (c.toNat - 48)
  else if 'a' ≤ c ∧ c ≤ 'f' then some (c.toNat - 87)
  else if 'A' ≤ c ∧ c ≤ 'F' then some (c.toNat - 55)
  else none

/-- The Python 3 `hex` codec on a string: bytes from digit pairs, and
`binascii.Error` (a `ValueError` subclass) on an odd-length string or a
non-hexadecimal digit. -/
def hexDecodeChars : List Char → Except PyError (List Nat)
  | [] => .ok []
  | [_] => .error .binasciiError
  | c1 :: c2 :: rest =>
    match hexVal c1, hexVal c2 with
    | some h, some l =>
      match hexDecodeChars rest with
      | .ok bs => .ok ((16 * h + l) :: bs)
      | .error e => .error e
    | _, _ => .error .binasciiError

/-- `hex_to_bytes` (decoder source, lines 165-172).  The source wraps the
codec call in `except TypeError: return None`; on a Python 3 string
argument the codec raises `binascii.Error`, which is not a `TypeError`,
so the handler never fires and the error propagates.  The `.ok none`
outcome of the handler is therefore unreachable for string inputs. -/
def hex_to_bytes (s : String) : Except PyError (Option (List Nat)) :=
  match hexDecodeChars s.data with
  | .ok bs => .ok (some bs)
  | .error e => .error e

/-- Accumulator dictionary right after the CRC check: the seed with
`crc_ok` flipped to true. -/
def seedDict (fmt : PacketFormat) : Dict :=
  [("packet_format", .fmt fmt), ("crc_ok", .bool true), ("payload_id", .int 0)]

/-- The `ukhas_str` value of a decode result, when present. -/
def ukhasOf (r : Except PyError Dict) : Option String :=
  match r with
  | .ok d =>
    match dictGet d "ukhas_str" with
    | some (.str s) => some s
    | _ => none
  | .error _ => none

/-- One field of a decode result, when the decode succeeded. -/
def outGet (r : Except PyError Dict) (k : String) : Option Value :=
  match r with
  | .ok d => dictGet d k
  | .error _ => none

/-- Key sequence of a decode result, when the decode succeeded. -/
def outKeys (r : Except PyError Dict) : Option (List String) :=
  match r with
  | .ok d => some (d.map Prod.fst)
  | .error _ => none

theorem dictGet_dictSet_self (d : Dict) (k : String) (v : Value) :
    dictGet (dictSet d k v) k = some v := by
  induction d with
  | nil => simp [dictGet, dictSet]
  | cons p rest ih =>
    by_cases h : p.1 = k
    · simp [dictGet, dictSet, h]
    · simp [dictGet, dictSet, h, ih]

theorem dictGet_dictSet_ne (d : Dict) (k k' : String) (v : Value) (h : k ≠ k') :
    dictGet (dictSet d k v) k' = dictGet d k' := by
  induction d with
  | nil => simp [dictGet, dictSet, h]
  | cons p rest ih =>
    by_cases hp : p.1 = k
    · simp [dictGet, dictSet, hp, h]
    · simp [dictGet, dictSet, hp, ih]

theorem intAssoc_mem {α : Type} (l : List (Int × α)) (i : Int) (a : α)
    (h : intAssoc l i = some a) : (i, a) ∈ l := by
  induction l with
  | nil => simp [intAssoc] at h
  | cons p rest ih =>
    obtain ⟨k, b⟩ := p
    simp only [intAssoc] at h
    by_cases hp : k = i
    · simp [hp] at h
      subst hp
      subst h
      exact List.mem_cons_self _ _
    · simp [hp] at h
      exact List.mem_cons_of_mem _ (ih h)

/-- The names written by a `decode_custom_fields` result are exactly the
names declared by the custom sub-layout, in order. -/
theorem decodeCustomList_names (names : List (Int × String))
    (l : List ((String × String) × Value)) (ps : List (String × Value))
    (ts : List String) (h : decodeCustomList names l = .ok (ps, ts)) :
    ps.map Prod.fst = l.map (fun p => p.1.1) := by
  induction l generalizing ps ts with
  | nil => simp [decodeCustomList] at h; simp [h.1]
  | cons p rest ih =>
    obtain ⟨⟨n, tag⟩, raw⟩ := p
    simp only [decodeCustomList] at h
    cases hdf : decode_field names tag raw with
    | error e => rw [hdf] at h; exact absurd h (by simp)
    | ok vs =>
      rw [hdf] at h
      cases hdl : decodeCustomList names rest with
      | error e => rw [hdl] at h; exact absurd h (by simp)
      | ok pt =>
        rw [hdl] at h
        obtain ⟨hps, hts⟩ := by simpa using h
        simp [← hps, ih pt.1 pt.2 (by rw [hdl])]

theorem decode_custom_fields_names (names : List (Int × String))
    (layout : CustomFieldLayout) (raw : Value) (ps : List (String × Value))
    (s : String) (h : decode_custom_fields names layout raw = .ok (ps, s)) :
    ∀ p ∈ ps, p.1 ∈ layout.fields.map Prod.fst := by
  cases raw with
  | bytes bs =>
    simp only [decode_custom_fields] at h
    cases hu : unpack layout.struct bs with
    | none => simp [hu] at h
    | some raws =>
      simp only [hu] at h
      split at h
      · simp at h
      · rename_i hlen
        cases hdl : decodeCustomList names (layout.fields.zip raws) with
        | error e => rw [hdl] at h; simp at h
        | ok pt =>
          obtain ⟨ps', ts⟩ := pt
          rw [hdl] at h
          simp only [Except.ok.injEq, Prod.mk.injEq] at h
          obtain ⟨hps, -⟩ := h
          intro p hp
          rw [← hps] at hp
          have hnames := decodeCustomList_names names _ ps' ts hdl
          have hmem : p.1 ∈ ps'.map Prod.fst := List.mem_map_of_mem _ hp
          rw [hnames] at hmem
          have hzip : (layout.fields.zip raws).map
              (fun q : (String × String) × Value => q.1.1) =
              layout.fields.map Prod.fst := by
            rw [show (fun q : (String × String) × Value => q.1.1) =
              (Prod.fst ∘ Prod.fst) from rfl]
            rw [← List.map_map, List.map_fst_zip]
            omega
          rw [hzip] at hmem
          exact hmem
  | int i => simp [decode_custom_fields] at h
  | str s' => simp [decode_custom_fields] at h
  | float b => simp [decode_custom_fields] at h
  | bool b => simp [decode_custom_fields] at h
  | fmt f => simp [decode_custom_fields] at h
  | rat n d => simp [decode_custom_fields] at h

theorem HORUS_LENGTH_TO_FORMAT_inv (n : Nat) (f : PacketFormat)
    (h : HORUS_LENGTH_TO_FORMAT n = some f) :
    (n = 22 ∧ f = horus_binary_v1) ∨ (n = 16 ∧ f = horus_binary_v2_16byte) ∨
      (n = 32 ∧ f = horus_binary_v2_32byte) := by
  unfold HORUS_LENGTH_TO_FORMAT at h
  split at h
  · rename_i h22; simp at h; exact Or.inl ⟨h22, h.symm⟩
  · split at h
    · rename_i h16; simp at h; exact Or.inr (Or.inl ⟨h16, h.symm⟩)
    · split at h
      · rename_i h32; simp at h; exact Or.inr (Or.inr ⟨h32, h.symm⟩)
      · simp at h

/-- Inversion of a successful `decode_packet`: every guard passed and the
output is the processed dictionary extended with the assembled sentence. -/
theorem decode_packet_ok_inv (names : List (Int × String))
    (cf : List (Int × CustomFieldLayout)) (data : List Nat)
    (pf : Option PacketFormat) (out : Dict)
    (h : decode_packet names cf data pf = .ok out) :
    ∃ fmt raws d frags bs,
      (match pf with
        | some f => some f
        | none => HORUS_LENGTH_TO_FORMAT data.length) = some fmt ∧
      calcsize fmt.struct = some fmt.length ∧
      data.length = fmt.length ∧
      check_packet_crc data fmt.checksum = true ∧
      unpack fmt.struct data = some raws ∧
      raws.length = fmt.fields.length ∧
      processFields names cf (fmt.fields.zip raws) (seedDict fmt) [] = .ok (d, frags) ∧
      encodeAscii (joinComma frags) = .ok bs ∧
      out = dictSet d "ukhas_str" (.str ("$$" ++ joinComma frags ++ "*" ++ ukhas_crc bs)) := by
  simp only [decode_packet] at h
  split at h
  · simp at h
  · rename_i fmt hfmt
    cases hcalc : calcsize fmt.struct with
    | none => simp only [hcalc] at h; exact absurd h (by simp)
    | some structLength =>
      simp only [hcalc] at h
      split at h
      · simp at h
      · rename_i hstruct
        split at h
        · simp at h
        · rename_i hdata
          split at h
          · simp at h
          · rename_i hcrc
            cases hu : unpack fmt.struct data with
            | none => simp only [hu] at h; exact absurd h (by simp)
            | some raws =>
              simp only [hu] at h
              split at h
              · simp at h
              · rename_i hcount
                cases hpf : processFields names cf (fmt.fields.zip raws)
                    (dictSet [("packet_format", .fmt fmt), ("crc_ok", .bool false),
                      ("payload_id", .int 0)] "crc_ok" (.bool true)) [] with
                | error e => simp only [hpf] at h; exact absurd h (by simp)
                | ok dfr =>
                  obtain ⟨d, frags⟩ := dfr
                  simp only [hpf] at h
                  cases henc : encodeAscii (joinComma frags) with
                  | error e => simp only [henc] at h; exact absurd h (by simp)
                  | ok bs =>
                    simp only [henc, Except.ok.injEq] at h
                    refine ⟨fmt, raws, d, frags, bs, hfmt, ?_, by omega, ?_, hu, by omega,
                      ?_, henc, h.symm⟩
                    · rw [hcalc]
                      congr 1
                      omega
                    · simp only [Bool.not_eq_false] at hcrc
                      exact hcrc
                    · have hseed : dictSet [("packet_format", Value.fmt fmt),
                        ("crc_ok", Value.bool false), ("payload_id", Value.int 0)]
                        "crc_ok" (Value.bool true) = seedDict fmt := rfl
                      rw [hseed] at hpf
                      exact hpf

theorem customLookup_mem (cf : List (Int × CustomFieldLayout)) (v : Value)
    (layout : CustomFieldLayout) (h : customLookup cf v = some layout) :
    ∃ i, (i, layout) ∈ cf := by
  cases v with
  | int i => exact ⟨i, intAssoc_mem cf i layout h⟩
  | str s => simp [customLookup] at h
  | float b => simp [customLookup] at h
  | bytes bs => simp [customLookup] at h
  | bool b => simp [customLookup] at h
  | fmt f => simp [customLookup] at h
  | rat n d => simp [customLookup] at h

theorem dictGet_foldl_dictSet_ne (ps : List (String × Value)) (d : Dict) (k : String)
    (h : ∀ p ∈ ps, p.1 ≠ k) :
    dictGet (ps.foldl (fun acc p => dictSet acc p.1 p.2) d) k = dictGet d k := by
  induction ps generalizing d with
  | nil => rfl
  | cons p rest ih =>
    simp only [List.foldl_cons]
    rw [ih _ (fun q hq => h q (List.mem_cons_of_mem _ hq))]
    exact dictGet_dictSet_ne _ _ _ _ (h p (List.mem_cons_self _ _))

/-- Through the field extraction loop, a key is left untouched unless it
is written by a plain field spec of that name or declared by some custom
sub-layout: the `custom` and `checksum` specs never write their own
names, and custom writes use only layout-declared names. -/
theorem processFields_dictGet_preserved (names : List (Int × String))
    (cf : List (Int × CustomFieldLayout)) (pairs : List ((String × String) × Value))
    (d : Dict) (fr : List String) (d' : Dict) (fr' : List String) (k : String)
    (hk : ∀ p ∈ pairs, p.1.1 = k → k = "custom" ∨ k = "checksum")
    (hcf : ∀ q ∈ cf, ∀ f ∈ q.2.fields, f.1 ≠ k)
    (h : processFields names cf pairs d fr = .ok (d', fr')) :
    dictGet d' k = dictGet d k := by
  induction pairs generalizing d fr with
  | nil =>
    simp only [processFields, Except.ok.injEq, Prod.mk.injEq] at h
    rw [← h.1]
  | cons p rest ih =>
    obtain ⟨⟨n, tag⟩, raw⟩ := p
    have hkrest : ∀ q ∈ rest, q.1.1 = k → k = "custom" ∨ k = "checksum" :=
      fun q hq => hk q (List.mem_cons_of_mem _ hq)
    simp only [processFields] at h
    by_cases hcust : n = "custom"
    · rw [if_pos hcust] at h
      cases hl : customLookup cf ((dictGet d "payload_id").getD (.int 0)) with
      | none =>
        simp only [hl] at h
        exact ih _ _ hkrest h
      | some layout =>
        simp only [hl] at h
        cases hdc : decode_custom_fields names layout raw with
        | error e => simp only [hdc] at h; exact absurd h (by simp)
        | ok pc =>
          obtain ⟨pairs2, cstr⟩ := pc
          simp only [hdc] at h
          rw [ih _ _ hkrest h]
          apply dictGet_foldl_dictSet_ne
          intro q hq
          have hqn := decode_custom_fields_names names layout raw pairs2 cstr hdc q hq
          obtain ⟨i, hmem⟩ := customLookup_mem cf _ layout hl
          obtain ⟨f, hf, hfq⟩ := List.mem_map.mp hqn
          rw [← hfq]
          exact hcf (i, layout) hmem f hf
    · rw [if_neg hcust] at h
      by_cases hchk : n = "checksum"
      · rw [if_pos hchk] at h
        exact ih _ _ hkrest h
      · rw [if_neg hchk] at h
        cases hdf : decode_field names tag raw with
        | error e => simp only [hdf] at h; exact absurd h (by simp)
        | ok vs =>
          obtain ⟨v, s⟩ := vs
          simp only [hdf] at h
          rw [ih _ _ hkrest h]
          apply dictGet_dictSet_ne
          intro hnk
          subst hnk
          rcases hk _ (List.mem_cons_self _ _) rfl with hc | hc
          · exact hcust hc
          · exact hchk hc

/-- Field specs named `checksum` contribute nothing to the loop: filtering
them out of the zipped spec/raw list leaves the result unchanged — the
formal sense in which `checksum` is excluded from both the output map and
the text sentence. -/
theorem processFields_filter_checksum (names : List (Int × String))
    (cf : List (Int × CustomFieldLayout)) (pairs : List ((String × String) × Value))
    (d : Dict) (fr : List String) :
    processFields names cf (pairs.filter (fun p => p.1.1 != "checksum")) d fr =
      processFields names cf pairs d fr := by
  induction pairs generalizing d fr with
  | nil => rfl
  | cons p rest ih =>
    obtain ⟨⟨n, tag⟩, raw⟩ := p
    by_cases hchk : n = "checksum"
    · subst hchk
      rw [List.filter_cons_of_neg (by simp)]
      rw [ih]
      conv_rhs => rw [processFields]
      rw [if_neg (by decide), if_pos rfl]
    · rw [List.filter_cons_of_pos (by simp [hchk])]
      conv_lhs => rw [processFields]
      conv_rhs => rw [processFields]
      by_cases hcust : n = "custom"
      · rw [if_pos hcust, if_pos hcust]
        cases hl : customLookup cf ((dictGet d "payload_id").getD (.int 0)) with
        | none => simp only [hl]; exact ih _ _
        | some layout =>
          simp only [hl]
          cases hdc : decode_custom_fields names layout raw with
          | error e => simp only [hdc]
          | ok pc => obtain ⟨pairs2, cstr⟩ := pc; simp only [hdc]; exact ih _ _
      · rw [if_neg hcust, if_neg hcust, if_neg hchk, if_neg hchk]
        cases hdf : decode_field names tag raw with
        | error e => simp only [hdf]
        | ok vs => obtain ⟨v, s⟩ := vs; simp only [hdf]; exact ih _ _

theorem decDigit_ne_star (n : Nat) : decDigit n ≠ '*' := by
  unfold decDigit
  repeat' split
  all_goals decide

theorem hexDigit_ne_star (n : Nat) : hexDigit n ≠ '*' := by
  unfold hexDigit decDigit
  repeat' split
  all_goals decide

theorem natCharsAux_ne_star (fuel n : Nat) : ∀ c ∈ natCharsAux fuel n, c ≠ '*' := by
  induction fuel generalizing n with
  | zero => intro c hc; simp [natCharsAux] at hc
  | succ fuel ih =>
    rw [natCharsAux]
    split
    · intro c hc
      simp only [List.mem_singleton] at hc
      subst hc
      exact decDigit_ne_star n
    · intro c hc
      rcases List.mem_append.mp hc with hc | hc
      · exact ih (n / 10) c hc
      · simp only [List.mem_singleton] at hc
        subst hc
        exact decDigit_ne_star (n % 10)

theorem natChars_ne_star (n : Nat) : ∀ c ∈ natChars n, c ≠ '*' :=
  natCharsAux_ne_star (n + 1) n

/-- The string has no `*` character — the property that keeps the UKHAS
sentence's `*` separator unique. -/
def noStar (s : String) : Prop := '*' ∉ s.data

theorem sAppend_data (a b : String) : (a ++ b).data = a.data ++ b.data := by
  cases a
  cases b
  rfl

theorem noStar_append (a b : String) (ha : noStar a) (hb : noStar b) :
    noStar (a ++ b) := by
  unfold noStar at ha hb ⊢
  rw [sAppend_data]
  intro hmem
  rcases List.mem_append.mp hmem with h | h
  · exact ha h
  · exact hb h

theorem noStar_mk (cs : List Char) (h : ∀ c ∈ cs, c ≠ '*') : noStar (String.mk cs) := by
  intro hmem
  exact h _ hmem rfl

theorem noStar_padZeros (k : Nat) (cs : List Char) (h : ∀ c ∈ cs, c ≠ '*') :
    ∀ c ∈ padZeros k cs, c ≠ '*' := by
  intro c hc
  rcases List.mem_append.mp hc with hr | hr
  · rw [List.eq_of_mem_replicate hr]
    decide
  · exact h c hr

theorem noStar_intRepr (i : Int) : noStar (intRepr i) := by
  unfold intRepr
  apply noStar_append
  · split
    · intro hmem; simp at hmem
    · intro hmem; simp at hmem
  · exact noStar_mk _ (natChars_ne_star _)

theorem noStar_decFixed (num : Int) (den digits : Nat) : noStar (decFixed num den digits) := by
  unfold decFixed
  apply noStar_append
  apply noStar_append
  apply noStar_append
  · split
    · intro hmem; simp at hmem
    · intro hmem; simp at hmem
  · exact noStar_mk _ (natChars_ne_star _)
  · intro hmem; simp at hmem
  · exact noStar_mk _ (noStar_padZeros _ _ (natChars_ne_star _))

theorem noStar_floatRepr (bits : Nat) : noStar (floatRepr bits) := by
  unfold floatRepr
  dsimp only
  split
  · split
    · split
      · intro hmem; simp at hmem
      · intro hmem; simp at hmem
    · intro hmem; simp at hmem
  · apply noStar_append
    apply noStar_append
    apply noStar_append
    · split
      · intro hmem; simp at hmem
      · intro hmem; simp at hmem
    · exact noStar_mk _ (natChars_ne_star _)
    · intro hmem; simp at hmem
    · exact noStar_mk _ (noStar_padZeros _ _ (natChars_ne_star _))

theorem noStar_hmsText (h m s : Nat) : noStar (hmsText h m s) := by
  unfold hmsText
  apply noStar_mk
  intro c hc
  rcases List.mem_append.mp hc with hr | hr
  · exact noStar_padZeros _ _ (natChars_ne_star _) c hr
  · rcases List.mem_cons.mp hr with hr | hr
    · subst hr; decide
    · rcases List.mem_append.mp hr with hr | hr
      · exact noStar_padZeros _ _ (natChars_ne_star _) c hr
      · rcases List.mem_cons.mp hr with hr | hr
        · subst hr; decide
        · exact noStar_padZeros _ _ (natChars_ne_star _) c hr

theorem noStar_hexText (bs : List Nat) : noStar (hexText bs) := by
  unfold hexText
  apply noStar_mk
  intro c hc
  obtain ⟨l, hl, hcl⟩ := List.mem_flatten.mp hc
  obtain ⟨b, -, hb⟩ := List.mem_map.mp hl
  subst hb
  rcases List.mem_cons.mp hcl with h | h
  · subst h; exact hexDigit_ne_star _
  · rcases List.mem_cons.mp h with h | h
    · subst h; exact hexDigit_ne_star _
    · simp at h

theorem noStar_hex4 (n : Nat) : noStar (hex4 n) := by
  unfold hex4
  apply noStar_mk
  intro c hc
  simp only [List.mem_cons, List.not_mem_nil, or_false] at hc
  rcases hc with h | h | h | h
  all_goals (subst h; exact hexDigit_ne_star _)

theorem noStar_ukhas_crc (bs : List Nat) : noStar (ukhas_crc bs) := noStar_hex4 _

/-- Raw scalars that `struct.unpack` can actually produce: integers, byte
blocks, and float bit patterns. -/
def rawFromWire (raw : Value) : Prop :=
  match raw with
  | .int _ => True
  | .bytes _ => True
  | .float _ => True
  | _ => False

theorem decodeScalar_wire (c : Char) (bs : List Nat) : rawFromWire (decodeScalar c bs) := by
  unfold decodeScalar
  split
  · trivial
  · split
    · trivial
    · split
      · trivial
      · trivial

theorem readSlots_wire (slots : List (Char × Nat)) (bs : List Nat) (raws : List Value)
    (h : readSlots slots bs = some raws) : ∀ v ∈ raws, rawFromWire v := by
  induction slots generalizing bs raws with
  | nil =>
    simp only [readSlots] at h
    split at h
    · simp only [Option.some.injEq] at h
      subst h
      intro v hv
      simp at hv
    · simp at h
  | cons slot rest ih =>
    obtain ⟨c, sz⟩ := slot
    simp only [readSlots] at h
    split at h
    · cases hr : readSlots rest (bs.drop sz) with
      | none => rw [hr] at h; simp at h
      | some vs =>
        rw [hr] at h
        simp only [Option.some.injEq] at h
        subst h
        intro v hv
        rcases List.mem_cons.mp hv with hv | hv
        · subst hv; exact decodeScalar_wire _ _
        · exact ih _ _ hr v hv
    · simp at h

theorem unpack_wire (s : String) (bs : List Nat) (raws : List Value)
    (h : unpack s bs = some raws) : ∀ v ∈ raws, rawFromWire v := by
  unfold unpack at h
  cases hs : slotsOf s with
  | none => rw [hs] at h; simp at h
  | some slots => rw [hs] at h; exact readSlots_wire slots bs raws h

/-- All payload display names in a registry snapshot are `*`-free (true
of every standard snapshot; a display name is free-form external data). -/
def namesNoStar (names : List (Int × String)) : Prop :=
  ∀ q ∈ names, noStar q.2

theorem noStar_rawText (raw : Value) (hw : rawFromWire raw) : noStar (rawText raw) := by
  cases raw with
  | int i => exact noStar_intRepr i
  | bytes bs => exact noStar_hexText bs
  | float b => exact noStar_floatRepr b
  | str s => exact absurd hw (by simp [rawFromWire])
  | bool b => exact absurd hw (by simp [rawFromWire])
  | fmt f => exact absurd hw (by simp [rawFromWire])
  | rat n d => exact absurd hw (by simp [rawFromWire])

/-- Every canonical text produced by the field codec on a wire scalar is
`*`-free, provided the payload-name snapshot is. -/
theorem decode_field_noStar (names : List (Int × String)) (tag : String) (raw : Value)
    (v : Value) (s : String) (hn : namesNoStar names) (hw : rawFromWire raw)
    (h : decode_field names tag raw = .ok (v, s)) : noStar s := by
  unfold decode_field at h
  split at h
  · simp only [Except.ok.injEq, Prod.mk.injEq] at h
    rw [← h.2]
    exact noStar_rawText raw hw
  · split at h
    · cases raw with
      | int i =>
        simp only [Except.ok.injEq, Prod.mk.injEq] at h
        rw [← h.2]
        cases ha : intAssoc names i with
        | none => simp only [ha, Option.getD]; exact noStar_intRepr i
        | some nm => simp only [ha, Option.getD]; exact hn _ (intAssoc_mem names i nm ha)
      | bytes bs =>
        simp only [Except.ok.injEq, Prod.mk.injEq] at h
        rw [← h.2]
        exact noStar_rawText _ hw
      | float b =>
        simp only [Except.ok.injEq, Prod.mk.injEq] at h
        rw [← h.2]
        exact noStar_rawText _ hw
      | str s' => exact absurd hw (by simp [rawFromWire])
      | bool b => exact absurd hw (by simp [rawFromWire])
      | fmt f => exact absurd hw (by simp [rawFromWire])
      | rat n d => exact absurd hw (by simp [rawFromWire])
    · split at h
      · cases raw with
        | bytes bs =>
          simp only [Except.ok.injEq, Prod.mk.injEq] at h
          rw [← h.2]
          exact noStar_hmsText _ _ _
        | int i => simp at h
        | float b => simp at h
        | str s' => simp at h
        | bool b => simp at h
        | fmt f => simp at h
        | rat n d => simp at h
      · split at h
        · cases raw with
          | int i =>
            simp only [Except.ok.injEq, Prod.mk.injEq] at h
            rw [← h.2]
            exact noStar_hmsText _ _ _
          | bytes bs => simp at h
          | float b => simp at h
          | str s' => simp at h
          | bool b => simp at h
          | fmt f => simp at h
          | rat n d => simp at h
        · split at h
          · cases raw with
            | float b =>
              simp only [Except.ok.injEq, Prod.mk.injEq] at h
              rw [← h.2]
              exact noStar_floatRepr b
            | int i => simp at h
            | bytes bs => simp at h
            | str s' => simp at h
            | bool b => simp at h
            | fmt f => simp at h
            | rat n d => simp at h
          · split at h
            · cases raw with
              | bytes bs =>
                simp only [Except.ok.injEq, Prod.mk.injEq] at h
                rw [← h.2]
                exact noStar_decFixed _ _ _
              | int i => simp at h
              | float b => simp at h
              | str s' => simp at h
              | bool b => simp at h
              | fmt f => simp at h
              | rat n d => simp at h
            · split at h
              · cases raw with
                | int i =>
                  simp only [Except.ok.injEq, Prod.mk.injEq] at h
                  rw [← h.2]
                  exact noStar_decFixed _ _ _
                | bytes bs => simp at h
                | float b => simp at h
                | str s' => simp at h
                | bool b => simp at h
                | fmt f => simp at h
                | rat n d => simp at h
              · simp at h

theorem noStar_joinComma (ts : List String) (h : ∀ t ∈ ts, noStar t) :
    noStar (joinComma ts) := by
  induction ts with
  | nil => intro hmem; simp [joinComma] at hmem
  | cons t rest ih =>
    cases rest with
    | nil => exact h t (List.mem_cons_self _ _)
    | cons t2 rest2 =>
      show noStar (t ++ "," ++ joinComma (t2 :: rest2))
      apply noStar_append
      apply noStar_append
      · exact h t (List.mem_cons_self _ _)
      · intro hmem; simp at hmem
      · exact ih (fun q hq => h q (List.mem_cons_of_mem _ hq))

theorem decodeCustomList_noStar (names : List (Int × String))
    (l : List ((String × String) × Value)) (ps : List (String × Value))
    (ts : List String) (hn : namesNoStar names) (hw : ∀ p ∈ l, rawFromWire p.2)
    (h : decodeCustomList names l = .ok (ps, ts)) : ∀ t ∈ ts, noStar t := by
  induction l generalizing ps ts with
  | nil =>
    simp only [decodeCustomList, Except.ok.injEq, Prod.mk.injEq] at h
    intro t ht
    rw [← h.2] at ht
    simp at ht
  | cons p rest ih =>
    obtain ⟨⟨n, tag⟩, raw⟩ := p
    simp only [decodeCustomList] at h
    cases hdf : decode_field names tag raw with
    | error e => rw [hdf] at h; simp at h
    | ok vs =>
      obtain ⟨v, s⟩ := vs
      simp only [hdf] at h
      cases hdl : decodeCustomList names rest with
      | error e => rw [hdl] at h; simp at h
      | ok pt =>
        obtain ⟨ps', ts'⟩ := pt
        simp only [hdl, Except.ok.injEq, Prod.mk.injEq] at h
        intro t ht
        rw [← h.2] at ht
        rcases List.mem_cons.mp ht with ht | ht
        · rw [ht]
          exact decode_field_noStar names tag raw v s hn
            (hw _ (List.mem_cons_self _ _)) hdf
        · exact ih ps' ts' (fun q hq => hw q (List.mem_cons_of_mem _ hq)) hdl t ht

theorem decode_custom_fields_noStar (names : List (Int × String))
    (layout : CustomFieldLayout) (raw : Value) (ps : List (String × Value))
    (s : String) (hn : namesNoStar names) (h : decode_custom_fields names layout raw = .ok (ps, s)) :
    noStar s := by
  cases raw with
  | bytes bs =>
    simp only [decode_custom_fields] at h
    cases hu : unpack layout.struct bs with
    | none => simp [hu] at h
    | some raws =>
      simp only [hu] at h
      split at h
      · simp at h
      · cases hdl : decodeCustomList names (layout.fields.zip raws) with
        | error e => rw [hdl] at h; simp at h
        | ok pt =>
          obtain ⟨ps', ts⟩ := pt
          simp only [hdl, Except.ok.injEq, Prod.mk.injEq] at h
          rw [← h.2]
          apply noStar_joinComma
          apply decodeCustomList_noStar names _ ps' ts hn _ hdl
          intro p hp
          exact unpack_wire _ _ _ hu p.2 (List.of_mem_zip hp).2
  | int i => simp [decode_custom_fields] at h
  | str s' => simp [decode_custom_fields] at h
  | float b => simp [decode_custom_fields] at h
  | bool b => simp [decode_custom_fields] at h
  | fmt f => simp [decode_custom_fields] at h
  | rat n d => simp [decode_custom_fields] at h

/-- Every sentence fragment accumulated by the field extraction loop is
`*`-free when the payload-name snapshot is and the raw scalars came off
the wire. -/
theorem processFields_frags_noStar (names : List (Int × String))
    (cf : List (Int × CustomFieldLayout)) (pairs : List ((String × String) × Value))
    (d : Dict) (fr : List String) (d' : Dict) (fr' : List String)
    (hn : namesNoStar names) (hw : ∀ p ∈ pairs, rawFromWire p.2)
    (hfr : ∀ t ∈ fr, noStar t) (h : processFields names cf pairs d fr = .ok (d', fr')) :
    ∀ t ∈ fr', noStar t := by
  induction pairs generalizing d fr with
  | nil =>
    simp only [processFields, Except.ok.injEq, Prod.mk.injEq] at h
    rw [← h.2]
    exact hfr
  | cons p rest ih =>
    obtain ⟨⟨n, tag⟩, raw⟩ := p
    have hwrest : ∀ q ∈ rest, rawFromWire q.2 :=
      fun q hq => hw q (List.mem_cons_of_mem _ hq)
    simp only [processFields] at h
    split at h
    · cases hl : customLookup cf ((dictGet d "payload_id").getD (.int 0)) with
      | none =>
        simp only [hl] at h
        exact ih _ _ hwrest hfr h
      | some layout =>
        simp only [hl] at h
        cases hdc : decode_custom_fields names layout raw with
        | error e => simp only [hdc] at h; exact absurd h (by simp)
        | ok pc =>
          obtain ⟨pairs2, cstr⟩ := pc
          simp only [hdc] at h
          apply ih _ _ hwrest _ h
          intro t ht
          rcases List.mem_append.mp ht with ht | ht
          · exact hfr t ht
          · rw [List.mem_singleton.mp ht]
            exact decode_custom_fields_noStar names layout raw pairs2 cstr hn hdc
    · split at h
      · exact ih _ _ hwrest hfr h
      · cases hdf : decode_field names tag raw with
        | error e => simp only [hdf] at h; exact absurd h (by simp)
        | ok vs =>
          obtain ⟨v, s⟩ := vs
          simp only [hdf] at h
          apply ih _ _ hwrest _ h
          intro t ht
          rcases List.mem_append.mp ht with ht | ht
          · exact hfr t ht
          · rw [List.mem_singleton.mp ht]
            exact decode_field_noStar names tag raw v s hn
              (hw _ (List.mem_cons_self _ _)) hdf

theorem decodeScalar_B (bs : List Nat) : decodeScalar 'B' bs = .int (leNat bs) := rfl

theorem decodeScalar_H (bs : List Nat) : decodeScalar 'H' bs = .int (leNat bs) := rfl

theorem decodeScalar_b (bs : List Nat) :
    decodeScalar 'b' bs = .int (toSigned (leNat bs) (8 * bs.length)) := rfl

theorem decodeScalar_f (bs : List Nat) : decodeScalar 'f' bs = .float (leNat bs) := rfl

theorem decodeScalar_s (bs : List Nat) : decodeScalar 's' bs = .bytes bs := rfl

/-- Unpacking the 32-byte v2 layout from any 32-byte input: the twelve
raw scalars, as slices of the input. -/
theorem unpack_v2_32 (data : List Nat) (h : data.length = 32) :
    unpack "<HH3sffHBBbB9sH" data = some
      [.int (leNat (data.take 2)),
       .int (leNat ((data.drop 2).take 2)),
       .bytes ((data.drop 4).take 3),
       .float (leNat ((data.drop 7).take 4)),
       .float (leNat ((data.drop 11).take 4)),
       .int (leNat ((data.drop 15).take 2)),
       .int (leNat ((data.drop 17).take 1)),
       .int (leNat ((data.drop 18).take 1)),
       .int (toSigned (leNat ((data.drop 19).take 1)) 8),
       .int (leNat ((data.drop 20).take 1)),
       .bytes ((data.drop 21).take 9),
       .int (leNat ((data.drop 30).take 2))] := by
  have hnil : data.drop 32 = [] := List.drop_eq_nil_of_le (by omega)
  unfold unpack
  rw [show slotsOf "<HH3sffHBBbB9sH" = some [('H', 2), ('H', 2), ('s', 3), ('f', 4),
    ('f', 4), ('H', 2), ('B', 1), ('B', 1), ('b', 1), ('B', 1), ('s', 9), ('H', 2)] from rfl]
  simp only [readSlots, List.drop_drop, List.length_drop, List.length_take, h, hnil,
    decodeScalar_B, decodeScalar_H, decodeScalar_b, decodeScalar_f, decodeScalar_s]
  norm_num

/-- The field extraction loop on the 32-byte v2 layout, evaluated
symbolically: ten decoded top-level fields, then the custom block
(dispatched on the decoded payload id), then the skipped checksum. -/
theorem processFields_v2_32_eval (names : List (Int × String))
    (cf : List (Int × CustomFieldLayout)) (pid seq alt spd sat tmp bat ck : Int)
    (tb cb : List Nat) (la lo : Nat) :
    processFields names cf (horus_binary_v2_32byte.fields.zip
      [.int pid, .int seq, .bytes tb, .float la, .float lo, .int alt, .int spd,
       .int sat, .int tmp, .int bat, .bytes cb, .int ck])
      (seedDict horus_binary_v2_32byte) [] =
    (let base : Dict := [("packet_format", .fmt horus_binary_v2_32byte),
        ("crc_ok", .bool true), ("payload_id", .int pid), ("sequence_number", .int seq),
        ("time", .str (hmsText (tb.getD 0 0) (tb.getD 1 0) (tb.getD 2 0))),
        ("latitude", .float la), ("longitude", .float lo), ("altitude", .int alt),
        ("speed", .int spd), ("satellites", .int sat), ("temperature", .int tmp),
        ("battery_voltage", .rat (bat * 5) 255)]
     let bfr : List String := [(intAssoc names pid).getD (intRepr pid), intRepr seq,
        hmsText (tb.getD 0 0) (tb.getD 1 0) (tb.getD 2 0), floatRepr la, floatRepr lo,
        intRepr alt, intRepr spd, intRepr sat, intRepr tmp, decFixed (bat * 5) 255 2]
     match intAssoc cf pid with
     | none => .ok (base, bfr)
     | some layout =>
       match decode_custom_fields names layout (.bytes cb) with
       | .error e => .error e
       | .ok (pairs, cstr) =>
         .ok (pairs.foldl (fun acc p => dictSet acc p.1 p.2) base, bfr ++ [cstr])) := rfl

/-- The spec's 22-byte v1 boundary-case packet
`01 12 00 00 00 23 00 00 00 00 00 00 00 00 00 00 00 00 1C 9A 95 45`. -/
def horusV1TestPacket : List Nat :=
  [1, 18, 0, 0, 0, 35, 0, 0, 0, 0, 0, 0, 0, 0, 0, 0, 0, 0, 28, 154, 149, 69]

/-- The same packet with byte 13 (index 12) altered from `00` to `01`,
as in the matched test fixture. -/
def horusV1TestPacketBad : List Nat :=
  [1, 18, 0, 0, 0, 35, 0, 0, 0, 0, 0, 0, 1, 0, 0, 0, 0, 0, 28, 154, 149, 69]

/-- The source's 32-byte v2 test packet (payload id `0xFFFF`, custom
block all zero, checksum `0x82E8`). -/
def horusV232TestPacket : List Nat :=
  [255, 255, 18, 0, 0, 0, 35, 0, 0, 0, 0, 0, 0, 0, 0, 0, 1, 0, 0, 0, 0, 0, 0, 0,
   0, 0, 0, 0, 0, 0, 232, 130]

/-- C1: with no explicit format and a byte length outside the registry
(0, 3 and 23, 31 here), `decode_packet` leaves `packet_format` as `None`
and the next subscript raises `TypeError` — it never produces a typed
`UnknownFormat` decode failure (no such failure exists in the code). -/
theorem c1_unregistered_length_raises_typeerror :
    decode_packet [] [] [] none = .error PyError.typeError ∧
    decode_packet [] [] [0, 0, 0] none = .error PyError.typeError ∧
    decode_packet [] [] (List.replicate 23 0) none = .error PyError.typeError ∧
    decode_packet [] [] (List.replicate 31 0) none = .error PyError.typeError := by
  refine ⟨rfl, rfl, by decide, by decide⟩

/-- C8: the 22-byte boundary-case packet decodes successfully under the
v1 layout with `crc_ok = true`, and altering byte 13 from `00` to `01`
produces the CRC failure `ValueError`. -/
theorem c8_v1_boundary_vector :
    (decode_packet [] [] horusV1TestPacket none).isOk = true ∧
    outGet (decode_packet [] [] horusV1TestPacket none) "packet_format" =
      some (.fmt horus_binary_v1) ∧
    outGet (decode_packet [] [] horusV1TestPacket none) "crc_ok" = some (.bool true) ∧
    decode_packet [] [] horusV1TestPacketBad none = .error (.valueError .crcFailure) := by
  refine ⟨by decide, by decide, by decide, by decide⟩

/-- C9: on a Python 3 string input the hex codec raises `binascii.Error`
(a `ValueError`) for odd-length or non-hexadecimal text, and the
`except TypeError` handler does not catch it, so the exception escapes
instead of `None` being returned; well-formed hex still yields bytes. -/
theorem c9_hex_codec_error_escapes :
    hex_to_bytes "0" = .error PyError.binasciiError ∧
    hex_to_bytes "0g" = .error PyError.binasciiError ∧
    hex_to_bytes "01ff" = .ok (some [1, 255]) := by
  refine ⟨by decide, by decide, by decide⟩

/-- C5: `decode_packet` is deterministic — two calls on identical input
bytes, the same format argument, and the same registry snapshots return
identical records, including the `ukhas_str` field. -/
theorem c5_decode_packet_deterministic (names : List (Int × String))
    (cf : List (Int × CustomFieldLayout)) (d1 d2 : List Nat)
    (f1 f2 : Option PacketFormat) (hd : d1 = d2) (hf : f1 = f2) :
    decode_packet names cf d1 f1 = decode_packet names cf d2 f2 ∧
    ukhasOf (decode_packet names cf d1 f1) = ukhasOf (decode_packet names cf d2 f2) := by
  subst hd
  subst hf
  exact ⟨rfl, rfl⟩

theorem c5_decode_packet_deterministic_witness :
    decode_packet [] [] horusV1TestPacket none = decode_packet [] [] horusV1TestPacket none ∧
    ukhasOf (decode_packet [] [] horusV1TestPacket none) =
      ukhasOf (decode_packet [] [] horusV1TestPacket none) :=
  c5_decode_packet_deterministic [] [] horusV1TestPacket horusV1TestPacket none none rfl rfl

/-- C7: whenever the descriptor's struct-implied byte length disagrees
with its declared length, `decode_packet` fails with the malformed
descriptor `ValueError` for every input, before any checksum
verification or field extraction. -/
theorem c7_malformed_descriptor_checked_first (names : List (Int × String))
    (cf : List (Int × CustomFieldLayout)) (data : List Nat) (fmt : PacketFormat)
    (n : Nat) (hcalc : calcsize fmt.struct = some n) (hne : n ≠ fmt.length) :
    decode_packet names cf data (some fmt) =
      .error (.valueError (.malformedFormatDescriptor fmt.length n)) := by
  simp only [decode_packet, hcalc]
  rw [if_pos hne]

/-- A deliberately malformed descriptor: declared length 22, struct
implying 1 byte. -/
def badDescriptor : PacketFormat :=
  { name := "bad", length := 22, struct := "<B", checksum := "crc16", fields := [] }

theorem c7_malformed_descriptor_checked_first_witness :
    calcsize badDescriptor.struct = some 1 ∧ (1 : Nat) ≠ badDescriptor.length ∧
    decode_packet [] [] [7] (some badDescriptor) =
      .error (.valueError (.malformedFormatDescriptor badDescriptor.length 1)) :=
  ⟨rfl, by decide, c7_malformed_descriptor_checked_first [] [] [7] badDescriptor 1 rfl (by decide)⟩

theorem crcLoop_append (c : Nat) (l1 l2 : List Nat) :
    crcLoop c (l1 ++ l2) = crcLoop (crcLoop c l1) l2 := by
  induction l1 generalizing c with
  | nil => rfl
  | cons b rest ih =>
    show crcLoop (crc16Byte c b) (rest ++ l2) = _
    rw [ih]
    rfl

/-- The 30-byte CRC of the 32-byte test packet, staged in two 15-byte
chunks to keep each evaluation shallow. -/
theorem crc_v232_value : crc16ccitt (horusV232TestPacket.take 30) = 33512 := by
  have hsplit : horusV232TestPacket.take 30 =
      [255, 255, 18, 0, 0, 0, 35, 0, 0, 0, 0, 0, 0, 0, 0] ++
      [0, 1, 0, 0, 0, 0, 0, 0, 0, 0, 0, 0, 0, 0, 0] := by decide
  have h1 : crcLoop 65535 [255, 255, 18, 0, 0, 0, 35, 0, 0, 0, 0, 0, 0, 0, 0] = 5834 := by
    decide
  have h2 : crcLoop 5834 [0, 1, 0, 0, 0, 0, 0, 0, 0, 0, 0, 0, 0, 0, 0] = 33512 := by
    decide
  unfold crc16ccitt
  rw [hsplit, crcLoop_append, h1, h2]

theorem check_packet_crc_v232 : check_packet_crc horusV232TestPacket "crc16" = true := by
  unfold check_packet_crc
  rw [if_pos rfl]
  have h30 : horusV232TestPacket.length - 2 = 30 := by decide
  rw [h30, crc_v232_value]
  decide

/-- A successful-guard `decode_packet` on any 32-byte input with a valid
CRC reduces to the field loop plus sentence assembly. -/
theorem decode_packet_32 (names : List (Int × String))
    (cf : List (Int × CustomFieldLayout)) (data : List Nat) (hlen : data.length = 32)
    (hcrc : check_packet_crc data "crc16" = true) :
    decode_packet names cf data none =
      match processFields names cf (horus_binary_v2_32byte.fields.zip
        [.int (leNat (data.take 2)), .int (leNat ((data.drop 2).take 2)),
         .bytes ((data.drop 4).take 3), .float (leNat ((data.drop 7).take 4)),
         .float (leNat ((data.drop 11).take 4)), .int (leNat ((data.drop 15).take 2)),
         .int (leNat ((data.drop 17).take 1)), .int (leNat ((data.drop 18).take 1)),
         .int (toSigned (leNat ((data.drop 19).take 1)) 8),
         .int (leNat ((data.drop 20).take 1)), .bytes ((data.drop 21).take 9),
         .int (leNat ((data.drop 30).take 2))])
        (seedDict horus_binary_v2_32byte) [] with
      | .error e => .error e
      | .ok (d, frags) =>
        match encodeAscii (joinComma frags) with
        | .error e => .error e
        | .ok bs => .ok (dictSet d "ukhas_str"
            (.str ("$$" ++ joinComma frags ++ "*" ++ ukhas_crc bs))) := by
  have hres : HORUS_LENGTH_TO_FORMAT data.length = some horus_binary_v2_32byte := by
    rw [hlen]
    rfl
  simp only [decode_packet, hres,
    show calcsize horus_binary_v2_32byte.struct = some (32 : Nat) from rfl]
  rw [if_neg (by decide), if_neg (by omega)]
  rw [show horus_binary_v2_32byte.checksum = "crc16" from rfl, hcrc]
  simp only [Bool.true_eq_false, if_false]
  rw [show horus_binary_v2_32byte.struct = "<HH3sffHBBbB9sH" from rfl]
  simp only [unpack_v2_32 data hlen]
  rw [if_neg (by simp [horus_binary_v2_32byte])]
  rfl

/-- Unpacking the 22-byte v1 layout from any 22-byte input. -/
theorem unpack_v1 (data : List Nat) (h : data.length = 22) :
    unpack "<BH3sffHBBbBH" data = some
      [.int (leNat (data.take 1)),
       .int (leNat ((data.drop 1).take 2)),
       .bytes ((data.drop 3).take 3),
       .float (leNat ((data.drop 6).take 4)),
       .float (leNat ((data.drop 10).take 4)),
       .int (leNat ((data.drop 14).take 2)),
       .int (leNat ((data.drop 16).take 1)),
       .int (leNat ((data.drop 17).take 1)),
       .int (toSigned (leNat ((data.drop 18).take 1)) 8),
       .int (leNat ((data.drop 19).take 1)),
       .int (leNat ((data.drop 20).take 2))] := by
  have hnil : data.drop 22 = [] := List.drop_eq_nil_of_le (by omega)
  unfold unpack
  rw [show slotsOf "<BH3sffHBBbBH" = some [('B', 1), ('H', 2), ('s', 3), ('f', 4),
    ('f', 4), ('H', 2), ('B', 1), ('B', 1), ('b', 1), ('B', 1), ('H', 2)] from rfl]
  simp only [readSlots, List.drop_drop, List.length_drop, List.length_take, h, hnil,
    decodeScalar_B, decodeScalar_H, decodeScalar_b, decodeScalar_f, decodeScalar_s]
  norm_num

/-- The field extraction loop on the 22-byte v1 layout, evaluated
symbolically. -/
theorem processFields_v1_eval (names : List (Int × String))
    (cf : List (Int × CustomFieldLayout)) (pid seq alt spd sat tmp bat ck : Int)
    (tb : List Nat) (la lo : Nat) :
    processFields names cf (horus_binary_v1.fields.zip
      [.int pid, .int seq, .bytes tb, .float la, .float lo, .int alt, .int spd,
       .int sat, .int tmp, .int bat, .int ck])
      (seedDict horus_binary_v1) [] =
    .ok ([("packet_format", .fmt horus_binary_v1),
        ("crc_ok", .bool true), ("payload_id", .int pid), ("sequence_number", .int seq),
        ("time", .str (hmsText (tb.getD 0 0) (tb.getD 1 0) (tb.getD 2 0))),
        ("latitude", .float la), ("longitude", .float lo), ("altitude", .int alt),
        ("speed", .int spd), ("satellites", .int sat), ("temperature", .int tmp),
        ("battery_voltage", .rat (bat * 5) 255)],
       [(intAssoc names pid).getD (intRepr pid), intRepr seq,
        hmsText (tb.getD 0 0) (tb.getD 1 0) (tb.getD 2 0), floatRepr la, floatRepr lo,
        intRepr alt, intRepr spd, intRepr sat, intRepr tmp, decFixed (bat * 5) 255 2]) := rfl

/-- A successful-guard `decode_packet` on any 22-byte input with a valid
CRC reduces to the field loop plus sentence assembly. -/
theorem decode_packet_22 (names : List (Int × String))
    (cf : List (Int × CustomFieldLayout)) (data : List Nat) (hlen : data.length = 22)
    (hcrc : check_packet_crc data "crc16" = true) :
    decode_packet names cf data none =
      match processFields names cf (horus_binary_v1.fields.zip
        [.int (leNat (data.take 1)), .int (leNat ((data.drop 1).take 2)),
         .bytes ((data.drop 3).take 3), .float (leNat ((data.drop 6).take 4)),
         .float (leNat ((data.drop 10).take 4)), .int (leNat ((data.drop 14).take 2)),
         .int (leNat ((data.drop 16).take 1)), .int (leNat ((data.drop 17).take 1)),
         .int (toSigned (leNat ((data.drop 18).take 1)) 8),
         .int (leNat ((data.drop 19).take 1)), .int (leNat ((data.drop 20).take 2))])
        (seedDict horus_binary_v1) [] with
      | .error e => .error e
      | .ok (d, frags) =>
        match encodeAscii (joinComma frags) with
        | .error e => .error e
        | .ok bs => .ok (dictSet d "ukhas_str"
            (.str ("$$" ++ joinComma frags ++ "*" ++ ukhas_crc bs))) := by
  have hres : HORUS_LENGTH_TO_FORMAT data.length = some horus_binary_v1 := by
    rw [hlen]
    rfl
  simp only [decode_packet, hres,
    show calcsize horus_binary_v1.struct = some (22 : Nat) from rfl]
  rw [if_neg (by decide), if_neg (by omega)]
  rw [show horus_binary_v1.checksum = "crc16" from rfl, hcrc]
  simp only [Bool.true_eq_false, if_false]
  rw [show horus_binary_v1.struct = "<BH3sffHBBbBH" from rfl]
  simp only [unpack_v1 data hlen]
  rw [if_neg (by simp [horus_binary_v1])]
  rfl

/-- A custom-field registry snapshot whose sub-layout for payload
`0xFFFF` declares a field named `crc_ok` (9 bytes as `<bHHHH`). -/
def crcOkOverwriteRegistry : List (Int × CustomFieldLayout) :=
  [(65535, { struct := "<bHHHH",
             fields := [("crc_ok", "none"), ("a", "none"), ("b", "none"),
               ("c", "none"), ("d", "none")] })]

/-- C2 counterexample: with that snapshot the 32-byte test packet decodes
successfully, yet the returned record's `crc_ok` is the integer `0`
(falsy in Python), not `true` — the custom field overwrote it. -/
theorem c2_crc_ok_not_true_on_success_counterexample :
    (decode_packet [] crcOkOverwriteRegistry horusV232TestPacket none).isOk = true ∧
    outGet (decode_packet [] crcOkOverwriteRegistry horusV232TestPacket none) "crc_ok" =
      some (.int 0) := by
  rw [decode_packet_32 [] crcOkOverwriteRegistry horusV232TestPacket (by decide)
    check_packet_crc_v232]
  exact ⟨by decide, by decide⟩

/-- C2 (amended): a failed binary checksum on a resolved, well-formed
descriptor is the fatal CRC `ValueError`, with no partial output; and on
every successful registry-format decode whose custom sub-layouts declare
no field named `crc_ok`, the returned record has `crc_ok = true`. -/
theorem c2_checksum_failure_fatal_crc_ok_true :
    (∀ (names : List (Int × String)) (cf : List (Int × CustomFieldLayout))
      (data : List Nat) (pf : Option PacketFormat) (fmt : PacketFormat),
      (match pf with
        | some f => some f
        | none => HORUS_LENGTH_TO_FORMAT data.length) = some fmt →
      calcsize fmt.struct = some fmt.length →
      data.length = fmt.length →
      check_packet_crc data fmt.checksum = false →
      decode_packet names cf data pf = .error (.valueError .crcFailure)) ∧
    (∀ (names : List (Int × String)) (cf : List (Int × CustomFieldLayout))
      (data : List Nat),
      (decode_packet names cf data none).isOk = true →
      (∀ q ∈ cf, ∀ f ∈ q.2.fields, f.1 ≠ "crc_ok") →
      outGet (decode_packet names cf data none) "crc_ok" = some (.bool true)) := by
  constructor
  · intro names cf data pf fmt hres hcalc hlen hcrc
    simp only [decode_packet, hres, hcalc]
    rw [if_neg (by omega), if_neg (by omega), if_pos hcrc]
  · intro names cf data hok hcf
    cases hdec : decode_packet names cf data none with
    | error e => rw [hdec] at hok; simp [Except.isOk, Except.toBool] at hok
    | ok out =>
      obtain ⟨fmt, raws, d, frags, bs, hres, hcalc, hlen, hcrc, hu, hcount, hpf, henc, hout⟩ :=
        decode_packet_ok_inv names cf data none out hdec
      have hres' : HORUS_LENGTH_TO_FORMAT data.length = some fmt := hres
      have hfmt3 := HORUS_LENGTH_TO_FORMAT_inv data.length fmt hres'
      have hkey : ∀ p ∈ fmt.fields.zip raws, p.1.1 = "crc_ok" →
          ("crc_ok" : String) = "custom" ∨ ("crc_ok" : String) = "checksum" := by
        intro p hp heq
        exfalso
        have hf : p.1 ∈ fmt.fields := (List.of_mem_zip hp).1
        have hmem : p.1.1 ∈ fmt.fields.map Prod.fst := List.mem_map_of_mem _ hf
        rw [heq] at hmem
        rcases hfmt3 with ⟨-, hfv⟩ | ⟨-, hfv⟩ | ⟨-, hfv⟩
        all_goals rw [hfv] at hmem
        all_goals exact absurd hmem (by decide)
      have hpres := processFields_dictGet_preserved names cf _ _ _ d frags "crc_ok"
        hkey hcf hpf
      show dictGet out "crc_ok" = some (Value.bool true)
      rw [hout, dictGet_dictSet_ne _ _ _ _ (by decide), hpres]
      rfl

theorem c2_checksum_failure_fatal_crc_ok_true_witness :
    decode_packet [] [] horusV1TestPacketBad none = .error (.valueError .crcFailure) ∧
    outGet (decode_packet [] [] horusV1TestPacket none) "crc_ok" = some (.bool true) :=
  ⟨c2_checksum_failure_fatal_crc_ok_true.1 [] [] horusV1TestPacketBad none
      horus_binary_v1 (by decide) (by decide) (by decide) (by decide),
   c2_checksum_failure_fatal_crc_ok_true.2 [] [] horusV1TestPacket (by decide)
      (fun q hq => absurd hq (List.not_mem_nil q))⟩

theorem dictGet_dictSet_isSome (d : Dict) (k k' : String) (v : Value)
    (h : (dictGet d k').isSome = true) : (dictGet (dictSet d k v) k').isSome = true := by
  by_cases hk : k = k'
  · subst hk
    rw [dictGet_dictSet_self]
    rfl
  · rw [dictGet_dictSet_ne _ _ _ _ hk]
    exact h

theorem dictGet_foldl_isSome (ps : List (String × Value)) (d : Dict) (n : String)
    (h : n ∈ ps.map Prod.fst ∨ (dictGet d n).isSome = true) :
    (dictGet (ps.foldl (fun acc p => dictSet acc p.1 p.2) d) n).isSome = true := by
  induction ps generalizing d with
  | nil =>
    rcases h with h | h
    · simp at h
    · exact h
  | cons p rest ih =>
    simp only [List.foldl_cons]
    apply ih
    rcases h with h | h
    · simp only [List.map_cons, List.mem_cons] at h
      rcases h with h | h
      · right
        subst h
        rw [dictGet_dictSet_self]
        rfl
      · left
        exact h
    · right
      exact dictGet_dictSet_isSome _ _ _ _ h

theorem dictGet_foldl_filter (ps : List (String × Value)) (d : Dict) (n : String)
    (v : Value) (h : ps.filter (fun p => p.1 == n) = [(n, v)]) :
    dictGet (ps.foldl (fun acc p => dictSet acc p.1 p.2) d) n = some v := by
  induction ps generalizing d with
  | nil => simp at h
  | cons p rest ih =>
    by_cases hp : p.1 = n
    · rw [List.filter_cons_of_pos (by simp [hp])] at h
      simp only [List.cons.injEq] at h
      obtain ⟨hpv, hrest⟩ := h
      simp only [List.foldl_cons]
      rw [dictGet_foldl_dictSet_ne]
      · rw [hpv]
        exact dictGet_dictSet_self _ _ _
      · intro q hq heq
        have hq' := List.filter_eq_nil_iff.mp hrest q hq
        simp [heq] at hq'
    · rw [List.filter_cons_of_neg (by simp [hp])] at h
      simp only [List.foldl_cons]
      exact ih _ h

/-- Number of `*` characters in a string. -/
def starCount (s : String) : Nat := s.data.count '*'

theorem starCount_append (a b : String) : starCount (a ++ b) = starCount a + starCount b := by
  unfold starCount
  rw [sAppend_data, List.count_append]

theorem starCount_eq_zero (s : String) (h : noStar s) : starCount s = 0 :=
  List.count_eq_zero.mpr h

theorem encodeAscii_ok (s : String) (h : s.data.all (fun c => c.toNat < 128) = true) :
    encodeAscii s = .ok (s.data.map Char.toNat) := by
  unfold encodeAscii
  rw [if_pos h]

/-- A custom-field registry snapshot whose sub-layout for payload
`0xFFFF` declares a field named `checksum`. -/
def checksumOverwriteRegistry : List (Int × CustomFieldLayout) :=
  [(65535, { struct := "<bHHHH",
             fields := [("checksum", "none"), ("a", "none"), ("b", "none"),
               ("c", "none"), ("d", "none")] })]

/-- C6 counterexample: with that snapshot the 32-byte test packet decodes
successfully and the returned map does contain an entry named `checksum`
(inserted by the custom sub-layout). -/
theorem c6_checksum_key_present_counterexample :
    (decode_packet [] checksumOverwriteRegistry horusV232TestPacket none).isOk = true ∧
    outGet (decode_packet [] checksumOverwriteRegistry horusV232TestPacket none)
      "checksum" = some (.int 0) := by
  rw [decode_packet_32 [] checksumOverwriteRegistry horusV232TestPacket (by decide)
    check_packet_crc_v232]
  exact ⟨by decide, by decide⟩

/-- C6 (amended): on every successful decode whose custom sub-layouts
declare no field named `checksum`, the output map has no `checksum`
entry; and a zipped spec/raw pair named `checksum` contributes nothing
to the loop — filtering such pairs out changes neither the dictionary
nor the sentence fragments. -/
theorem c6_checksum_field_excluded (names : List (Int × String))
    (cf : List (Int × CustomFieldLayout)) (data : List Nat) (pf : Option PacketFormat)
    (pairs : List ((String × String) × Value)) (d0 : Dict) (fr0 : List String)
    (hok : (decode_packet names cf data pf).isOk = true)
    (hcf : ∀ q ∈ cf, ∀ f ∈ q.2.fields, f.1 ≠ "checksum") :
    outGet (decode_packet names cf data pf) "checksum" = none ∧
    processFields names cf (pairs.filter (fun p => p.1.1 != "checksum")) d0 fr0 =
      processFields names cf pairs d0 fr0 := by
  constructor
  · cases hdec : decode_packet names cf data pf with
    | error e => rw [hdec] at hok; simp [Except.isOk, Except.toBool] at hok
    | ok out =>
      obtain ⟨fmt, raws, d, frags, bs, hres, hcalc, hlen, hcrc, hu, hcount, hpf, henc, hout⟩ :=
        decode_packet_ok_inv names cf data pf out hdec
      have hkey : ∀ p ∈ fmt.fields.zip raws, p.1.1 = "checksum" →
          ("checksum" : String) = "custom" ∨ ("checksum" : String) = "checksum" :=
        fun _ _ _ => Or.inr rfl
      have hpres := processFields_dictGet_preserved names cf _ _ _ d frags "checksum"
        hkey hcf hpf
      show dictGet out "checksum" = none
      rw [hout, dictGet_dictSet_ne _ _ _ _ (by decide), hpres]
      rfl
  · exact processFields_filter_checksum names cf pairs d0 fr0

theorem c6_checksum_field_excluded_witness :
    outGet (decode_packet [] [] horusV1TestPacket none) "checksum" = none ∧
    processFields [] []
      (([(("checksum", "none"), Value.int 5)].filter (fun p => p.1.1 != "checksum")))
      [] [] = processFields [] [] [(("checksum", "none"), Value.int 5)] [] [] :=
  c6_checksum_field_excluded [] [] horusV1TestPacket none
    [(("checksum", "none"), Value.int 5)] [] [] (by decide)
    (fun q hq => absurd hq (List.not_mem_nil q))

/-- A payload-name registry snapshot whose display name for payload 1
contains a `*`. -/
def starNameRegistry : List (Int × String) := [(1, "X*Y")]

/-- C4 counterexample: with that snapshot the v1 test packet decodes
successfully but its `ukhas_str` contains two `*` characters, not
exactly one — the display name's `*` is copied into the sentence. -/
theorem c4_two_stars_counterexample :
    (ukhasOf (decode_packet starNameRegistry [] horusV1TestPacket none)).map starCount =
      some 2 := by
  rw [decode_packet_22 starNameRegistry [] horusV1TestPacket (by decide) (by decide)]
  rw [processFields_v1_eval]
  dsimp only
  rw [encodeAscii_ok _ (by decide)]
  dsimp only [ukhasOf]
  rw [dictGet_dictSet_self]
  dsimp only [Option.map]
  rw [starCount_append, starCount_append, starCount_append,
    starCount_eq_zero _ (noStar_ukhas_crc _)]
  decide

/-- C4 (amended): every successful decode's `ukhas_str` equals
`"$$" ++ joined ++ "*" ++ digest`, where `joined` comma-joins the
fragments retained by the field loop and `digest` is the UKHAS CRC of
the joined text's ASCII bytes; when no registry display name contains a
`*` (true of standard snapshots), the sentence contains exactly one `*`. -/
theorem c4_ukhas_sentence_structure (names : List (Int × String))
    (cf : List (Int × CustomFieldLayout)) (data : List Nat) (pf : Option PacketFormat)
    (hok : (decode_packet names cf data pf).isOk = true) :
    ∃ frags bs,
      encodeAscii (joinComma frags) = .ok bs ∧
      ukhasOf (decode_packet names cf data pf) =
        some ("$$" ++ joinComma frags ++ "*" ++ ukhas_crc bs) ∧
      (∃ fmt raws d,
        (match pf with
          | some f => some f
          | none => HORUS_LENGTH_TO_FORMAT data.length) = some fmt ∧
        unpack fmt.struct data = some raws ∧
        processFields names cf (fmt.fields.zip raws) (seedDict fmt) [] = .ok (d, frags)) ∧
      (namesNoStar names →
        starCount ("$$" ++ joinComma frags ++ "*" ++ ukhas_crc bs) = 1) := by
  cases hdec : decode_packet names cf data pf with
  | error e => rw [hdec] at hok; simp [Except.isOk, Except.toBool] at hok
  | ok out =>
    obtain ⟨fmt, raws, d, frags, bs, hres, hcalc, hlen, hcrc, hu, hcount, hpf, henc, hout⟩ :=
      decode_packet_ok_inv names cf data pf out hdec
    refine ⟨frags, bs, henc, ?_, ⟨fmt, raws, d, hres, hu, hpf⟩, ?_⟩
    · show ukhasOf (Except.ok out) = _
      unfold ukhasOf
      rw [hout]
      dsimp only
      rw [dictGet_dictSet_self]
    · intro hns
      have hwire : ∀ p ∈ fmt.fields.zip raws, rawFromWire p.2 :=
        fun p hp => unpack_wire _ _ _ hu p.2 (List.of_mem_zip hp).2
      have hfr := processFields_frags_noStar names cf _ _ _ d frags hns hwire
        (by intro t ht; simp at ht) hpf
      have hj : noStar (joinComma frags) := noStar_joinComma _ hfr
      rw [starCount_append, starCount_append, starCount_append,
        starCount_eq_zero _ (noStar_ukhas_crc _), starCount_eq_zero _ hj]
      rfl

theorem c4_ukhas_sentence_structure_witness :
    ∃ frags bs,
      encodeAscii (joinComma frags) = .ok bs ∧
      ukhasOf (decode_packet [] [] horusV1TestPacket none) =
        some ("$$" ++ joinComma frags ++ "*" ++ ukhas_crc bs) ∧
      (∃ fmt raws d,
        (match (none : Option PacketFormat) with
          | some f => some f
          | none => HORUS_LENGTH_TO_FORMAT horusV1TestPacket.length) = some fmt ∧
        unpack fmt.struct horusV1TestPacket = some raws ∧
        processFields [] [] (fmt.fields.zip raws) (seedDict fmt) [] = .ok (d, frags)) ∧
      (namesNoStar [] →
        starCount ("$$" ++ joinComma frags ++ "*" ++ ukhas_crc bs) = 1) :=
  c4_ukhas_sentence_structure [] [] horusV1TestPacket none (by decide)

/-- A successful `decode_custom_fields` yields exactly the declared
custom field names, in declared order. -/
theorem decode_custom_fields_names_eq (names : List (Int × String))
    (layout : CustomFieldLayout) (raw : Value) (ps : List (String × Value))
    (s : String) (h : decode_custom_fields names layout raw = .ok (ps, s)) :
    ps.map Prod.fst = layout.fields.map Prod.fst := by
  cases raw with
  | bytes bs =>
    simp only [decode_custom_fields] at h
    cases hu : unpack layout.struct bs with
    | none => simp [hu] at h
    | some raws =>
      simp only [hu] at h
      split at h
      · simp at h
      · rename_i hlen
        cases hdl : decodeCustomList names (layout.fields.zip raws) with
        | error e => rw [hdl] at h; simp at h
        | ok pt =>
          obtain ⟨ps', ts⟩ := pt
          rw [hdl] at h
          simp only [Except.ok.injEq, Prod.mk.injEq] at h
          obtain ⟨hps, -⟩ := h
          rw [← hps, decodeCustomList_names names _ ps' ts hdl]
          rw [show (fun q : (String × String) × Value => q.1.1) =
            (Prod.fst ∘ Prod.fst) from rfl]
          rw [← List.map_map, List.map_fst_zip]
          omega
  | int i => simp [decode_custom_fields] at h
  | str s' => simp [decode_custom_fields] at h
  | float b => simp [decode_custom_fields] at h
  | bool b => simp [decode_custom_fields] at h
  | fmt f => simp [decode_custom_fields] at h
  | rat n d => simp [decode_custom_fields] at h

/-- C3: on every successful length-resolved 32-byte decode, a payload id
absent from the custom-field registry leaves the output map with exactly
the thirteen standard keys and a ten-fragment sentence (custom silently
omitted, no error, no empty fragment); a present payload id decodes the
custom block, puts every declared custom field name in the output map,
and appends the custom text fragment after the ten field texts. -/
theorem c3_custom_field_handling (names : List (Int × String))
    (cf : List (Int × CustomFieldLayout)) (data : List Nat)
    (hok : (decode_packet names cf data none).isOk = true) (hlen : data.length = 32) :
    (intAssoc cf ((leNat (data.take 2) : Int)) = none →
       outKeys (decode_packet names cf data none) =
         some ["packet_format", "crc_ok", "payload_id", "sequence_number", "time",
           "latitude", "longitude", "altitude", "speed", "satellites", "temperature",
           "battery_voltage", "ukhas_str"] ∧
       ∃ frags bs, frags.length = 10 ∧
         encodeAscii (joinComma frags) = .ok bs ∧
         ukhasOf (decode_packet names cf data none) =
           some ("$$" ++ joinComma frags ++ "*" ++ ukhas_crc bs)) ∧
    (∀ layout, intAssoc cf ((leNat (data.take 2) : Int)) = some layout →
       ∃ pairs cstr frags bs,
         decode_custom_fields names layout (.bytes ((data.drop 21).take 9)) =
           .ok (pairs, cstr) ∧
         frags.length = 10 ∧
         encodeAscii (joinComma (frags ++ [cstr])) = .ok bs ∧
         ukhasOf (decode_packet names cf data none) =
           some ("$$" ++ joinComma (frags ++ [cstr]) ++ "*" ++ ukhas_crc bs) ∧
         (∀ nm ∈ layout.fields.map Prod.fst,
           (outGet (decode_packet names cf data none) nm).isSome = true)) := by
  cases hdec : decode_packet names cf data none with
  | error e => rw [hdec] at hok; simp [Except.isOk, Except.toBool] at hok
  | ok out =>
    obtain ⟨fmt, raws, d, frags, bs, hres, hcalc, hlenf, hcrc, hu, hcount, hpf, henc, hout⟩ :=
      decode_packet_ok_inv names cf data none out hdec
    have hres' : HORUS_LENGTH_TO_FORMAT data.length = some fmt := hres
    rw [hlen] at hres'
    have hfmt : some horus_binary_v2_32byte = some fmt := hres'
    obtain rfl := Option.some.inj hfmt
    have hu' : unpack "<HH3sffHBBbB9sH" data = some raws := hu
    have hraws := Option.some.inj ((unpack_v2_32 data hlen).symm.trans hu')
    rw [← hraws] at hpf
    rw [processFields_v2_32_eval] at hpf
    constructor
    · intro habs
      simp only [habs] at hpf
      simp only [Except.ok.injEq, Prod.mk.injEq] at hpf
      obtain ⟨hd, hf⟩ := hpf
      constructor
      · show outKeys (Except.ok out) = _
        unfold outKeys
        rw [hout, ← hd]
        rfl
      · refine ⟨frags, bs, ?_, henc, ?_⟩
        · rw [← hf]
          rfl
        · show ukhasOf (Except.ok out) = _
          unfold ukhasOf
          rw [hout]
          dsimp only
          rw [dictGet_dictSet_self]
    · intro layout hsome
      simp only [hsome] at hpf
      cases hdc : decode_custom_fields names layout (.bytes ((data.drop 21).take 9)) with
      | error e => simp only [hdc] at hpf; exact absurd hpf (by simp)
      | ok pc =>
        obtain ⟨pairs, cstr⟩ := pc
        simp only [hdc, Except.ok.injEq, Prod.mk.injEq] at hpf
        obtain ⟨hd, hf⟩ := hpf
        rw [← hf] at henc
        refine ⟨pairs, cstr, _, bs, rfl, ?_, henc, ?_, ?_⟩
        · rfl
        · show ukhasOf (Except.ok out) = _
          unfold ukhasOf
          rw [hout]
          dsimp only
          rw [dictGet_dictSet_self, ← hf]
        · intro nm hnm
          have hnames := decode_custom_fields_names_eq names layout _ pairs cstr hdc
          have hnm2 : nm ∈ pairs.map Prod.fst := by rw [hnames]; exact hnm
          show (outGet (Except.ok out) nm).isSome = true
          unfold outGet
          rw [hout]
          apply dictGet_dictSet_isSome
          rw [← hd]
          exact dictGet_foldl_isSome pairs _ nm (Or.inl hnm2)

theorem c3_custom_field_handling_witness :
    (intAssoc ([] : List (Int × CustomFieldLayout))
        ((leNat (horusV232TestPacket.take 2) : Int)) = none →
       outKeys (decode_packet [] [] horusV232TestPacket none) =
         some ["packet_format", "crc_ok", "payload_id", "sequence_number", "time",
           "latitude", "longitude", "altitude", "speed", "satellites", "temperature",
           "battery_voltage", "ukhas_str"] ∧
       ∃ frags bs, frags.length = 10 ∧
         encodeAscii (joinComma frags) = .ok bs ∧
         ukhasOf (decode_packet [] [] horusV232TestPacket none) =
           some ("$$" ++ joinComma frags ++ "*" ++ ukhas_crc bs)) ∧
    (∀ layout, intAssoc ([] : List (Int × CustomFieldLayout))
        ((leNat (horusV232TestPacket.take 2) : Int)) = some layout →
       ∃ pairs cstr frags bs,
         decode_custom_fields [] layout
           (.bytes ((horusV232TestPacket.drop 21).take 9)) = .ok (pairs, cstr) ∧
         frags.length = 10 ∧
         encodeAscii (joinComma (frags ++ [cstr])) = .ok bs ∧
         ukhasOf (decode_packet [] [] horusV232TestPacket none) =
           some ("$$" ++ joinComma (frags ++ [cstr]) ++ "*" ++ ukhas_crc bs) ∧
         (∀ nm ∈ layout.fields.map Prod.fst,
           (outGet (decode_packet [] [] horusV232TestPacket none) nm).isSome = true)) :=
  c3_custom_field_handling [] [] horusV232TestPacket
    (by rw [decode_packet_32 [] [] horusV232TestPacket (by decide) check_packet_crc_v232]
        decide)
    (by decide)

/-- C10: when the custom sub-layout's decoded pairs contain a unique
binding for a name `n` (other than `ukhas_str`, which is written after
the loop), the returned map's entry for `n` is the custom value — the
custom field overwrites any earlier-decoded or reserved entry of that
name. -/
theorem c10_custom_overwrites_colliding_keys (names : List (Int × String))
    (cf : List (Int × CustomFieldLayout)) (data : List Nat)
    (hok : (decode_packet names cf data none).isOk = true) (hlen : data.length = 32)
    (layout : CustomFieldLayout)
    (hl : intAssoc cf ((leNat (data.take 2) : Int)) = some layout)
    (pairs : List (String × Value)) (cstr : String)
    (hdc : decode_custom_fields names layout (.bytes ((data.drop 21).take 9)) =
      .ok (pairs, cstr))
    (n : String) (v : Value) (hn : pairs.filter (fun p => p.1 == n) = [(n, v)])
    (hnu : n ≠ "ukhas_str") :
    outGet (decode_packet names cf data none) n = some v := by
  cases hdec : decode_packet names cf data none with
  | error e => rw [hdec] at hok; simp [Except.isOk, Except.toBool] at hok
  | ok out =>
    obtain ⟨fmt, raws, d, frags, bs, hres, hcalc, hlenf, hcrc, hu, hcount, hpf, henc, hout⟩ :=
      decode_packet_ok_inv names cf data none out hdec
    have hres' : HORUS_LENGTH_TO_FORMAT data.length = some fmt := hres
    rw [hlen] at hres'
    have hfmt : some horus_binary_v2_32byte = some fmt := hres'
    obtain rfl := Option.some.inj hfmt
    have hu' : unpack "<HH3sffHBBbB9sH" data = some raws := hu
    have hraws := Option.some.inj ((unpack_v2_32 data hlen).symm.trans hu')
    rw [← hraws] at hpf
    rw [processFields_v2_32_eval] at hpf
    simp only [hl, hdc, Except.ok.injEq, Prod.mk.injEq] at hpf
    obtain ⟨hd, hf⟩ := hpf
    show outGet (Except.ok out) n = some v
    unfold outGet
    dsimp only
    rw [hout, dictGet_dictSet_ne _ _ _ _ (fun h => hnu h.symm), ← hd]
    exact dictGet_foldl_filter pairs _ n v hn

/-- A custom-field registry snapshot whose sub-layout for payload
`0xFFFF` declares a field named `altitude`, colliding with the
previously decoded top-level field of the same name. -/
def altitudeOverwriteRegistry : List (Int × CustomFieldLayout) :=
  [(65535, { struct := "<H7s", fields := [("altitude", "none"), ("blob", "none")] })]

theorem c10_custom_overwrites_colliding_keys_witness :
    outGet (decode_packet [] altitudeOverwriteRegistry horusV232TestPacket none)
      "altitude" = some (.int 0) :=
  c10_custom_overwrites_colliding_keys [] altitudeOverwriteRegistry horusV232TestPacket
    (by rw [decode_packet_32 [] altitudeOverwriteRegistry horusV232TestPacket (by decide)
          check_packet_crc_v232]
        decide)
    (by decide)
    { struct := "<H7s", fields := [("altitude", "none"), ("blob", "none")] }
    (by decide)
    [("altitude", .int 0), ("blob", .bytes [0, 0, 0, 0, 0, 0, 0])] "0,00000000000000"
    (by decide) "altitude" (.int 0) (by decide) (by decide)
